import Mathlib

/-!
Shallow embedding of the Simple-Vector C++20 library (DNKpp/Simple-Vector).

A `Vector<T, N>` stores exactly `N` values of type `T` in a `std::array`;
we model it as a function `Fin n → T`.  The transform engine of
Algorithm.hpp (`transform_unseq`, `transform_reduce_unseq`) is modelled by
its constant-evaluated branch, which performs a sequential element-wise
map respectively a sequential fold over the elements in index order.
`fn::cast_invoke_result` of Functional.hpp wraps a function and casts its
result to a target type; we model the cast as an explicit function.
-/

namespace SimpleVector

/-- Model of the unary overload of transform_unseq (Algorithm.hpp): apply
the unary operation to every element, writing results back in index order. -/
def transform_unseq1 {α β : Type*} {n : ℕ} (range : Fin n → α) (unaryOp : α → β) :
    Fin n → β :=
  fun i => unaryOp (range i)

/-- Model of the binary overload of transform_unseq (Algorithm.hpp): apply
the binary operation pairwise to corresponding elements of the two ranges. -/
def transform_unseq2 {α β γ : Type*} {n : ℕ} (range1 : Fin n → α) (range2 : Fin n → β)
    (binaryOp : α → β → γ) : Fin n → γ :=
  fun i => binaryOp (range1 i) (range2 i)

/-- Model of the two-range transform_reduce_unseq (Algorithm.hpp): apply
binaryOp2 to each pair of elements and fold the results with binaryOp1
starting from init.  The constant-evaluated branch of the source calls
std::transform_reduce, modelled here as a left fold in index order. -/
def transform_reduce_unseq2 {α β T : Type*} {n : ℕ} (range1 : Fin n → α)
    (range2 : Fin n → β) (init : T) (binaryOp1 : T → T → T) (binaryOp2 : α → β → T) : T :=
  (List.finRange n).foldl (fun acc i => binaryOp1 acc (binaryOp2 (range1 i) (range2 i))) init

/-- Model of fn::cast_invoke_result (Functional.hpp) applied to a unary
function object: invoke the function and cast the result. -/
def cast_invoke_result1 {α γ δ : Type*} (cast : γ → δ) (func : α → γ) : α → δ :=
  fun a => cast (func a)

/-- Model of fn::cast_invoke_result (Functional.hpp) applied to a binary
function object: invoke the function and cast the result. -/
def cast_invoke_result2 {α β γ δ : Type*} (cast : γ → δ) (func : α → β → γ) : α → β → δ :=
  fun a b => cast (func a b)

/-- Model of the conversion constructor Vector::Vector(const Vector<T2, M>&)
(Vector.hpp): the storage m_Values is zero-initialized, then the first
min(N, M) source elements are cast to the target value type and written in
index order via transform_unseq over a take_view of the source. -/
def vectorConvert {T2 T : Type*} [Zero T] {M N : ℕ} (cast : T2 → T)
    (other : Fin M → T2) : Fin N → T :=
  fun i =>
    if h : (i : ℕ) < min N M then
      cast_invoke_result1 cast id (other ⟨i, lt_of_lt_of_le h (min_le_right N M)⟩)
    else 0

/-- Model of Vector::operator+=(const Vector<T2, dimensions>&) for the
same element type (cast is the identity): pairwise addition via the
transform engine. -/
def vector_add_assign {T : Type*} [Add T] {n : ℕ} (v other : Fin n → T) : Fin n → T :=
  transform_unseq2 v other (cast_invoke_result2 id (· + ·))

/-- Model of Vector::operator-=(const Vector<T2, dimensions>&) for the
same element type: pairwise subtraction via the transform engine. -/
def vector_sub_assign {T : Type*} [Sub T] {n : ℕ} (v other : Fin n → T) : Fin n → T :=
  transform_unseq2 v other (cast_invoke_result2 id (· - ·))

/-- Model of Vector::operator+=(const T2&) for a scalar of the element
type: broadcast addition of the scalar via the transform engine. -/
def vector_add_scalar_assign {T : Type*} [Add T] {n : ℕ} (v : Fin n → T) (value : T) :
    Fin n → T :=
  transform_unseq1 v (cast_invoke_result1 id (fun lhs => lhs + value))

/-- Model of Vector::operator-=(const T2&) for a scalar of the element
type: broadcast subtraction of the scalar via the transform engine. -/
def vector_sub_scalar_assign {T : Type*} [Sub T] {n : ℕ} (v : Fin n → T) (value : T) :
    Fin n → T :=
  transform_unseq1 v (cast_invoke_result1 id (fun lhs => lhs - value))

/-- Model of Vector::operator*=(const T2&): broadcast multiplication by the
scalar via the transform engine; each element lhs becomes lhs * value. -/
def vector_mul_scalar_assign {T : Type*} [Mul T] {n : ℕ} (v : Fin n → T) (value : T) :
    Fin n → T :=
  transform_unseq1 v (cast_invoke_result1 id (fun lhs => lhs * value))

/-- Model of Vector::operator/=(const T2&): broadcast division by the
scalar via the transform engine; each element lhs becomes lhs / value. -/
def vector_div_scalar_assign {T : Type*} [Div T] {n : ℕ} (v : Fin n → T) (value : T) :
    Fin n → T :=
  transform_unseq1 v (cast_invoke_result1 id (fun lhs => lhs / value))

/-- Model of the free operator+(TVector lhs, T2&& rhs) for a scalar right
operand: copies lhs and applies compound addition. -/
def op_add_vs {T : Type*} [Add T] {n : ℕ} (lhs : Fin n → T) (rhs : T) : Fin n → T :=
  vector_add_scalar_assign lhs rhs

/-- Model of the free operator-(TVector lhs, T2&& rhs) for a scalar right
operand: copies lhs and applies compound subtraction. -/
def op_sub_vs {T : Type*} [Sub T] {n : ℕ} (lhs : Fin n → T) (rhs : T) : Fin n → T :=
  vector_sub_scalar_assign lhs rhs

/-- Model of the free operator+(TVector lhs, T2&& rhs) for a vector right
operand: copies lhs and applies compound addition. -/
def op_add_vv {T : Type*} [Add T] {n : ℕ} (lhs rhs : Fin n → T) : Fin n → T :=
  vector_add_assign lhs rhs

/-- Model of the free operator-(TVector lhs, T2&& rhs) for a vector right
operand: copies lhs and applies compound subtraction. -/
def op_sub_vv {T : Type*} [Sub T] {n : ℕ} (lhs rhs : Fin n → T) : Fin n → T :=
  vector_sub_assign lhs rhs

/-- Model of operator*(TVector lhs, T2&& rhs): copies lhs, then lhs *= rhs. -/
def op_mul_vs {T : Type*} [Mul T] {n : ℕ} (lhs : Fin n → T) (rhs : T) : Fin n → T :=
  vector_mul_scalar_assign lhs rhs

/-- Model of the commutative operator*(T2&& lhs, TVector rhs): copies rhs,
then rhs *= lhs. -/
def op_mul_sv {T : Type*} [Mul T] {n : ℕ} (lhs : T) (rhs : Fin n → T) : Fin n → T :=
  vector_mul_scalar_assign rhs lhs

/-- Model of dot_product(lhs, rhs) (Vector.hpp) for two vectors of the same
element type T: transform_reduce over both ranges, starting at T{} (zero),
folding with std::plus, mapping each pair with std::multiplies and casting
each product to T (here the identity, since the types agree). -/
def dot_product {T : Type*} [Zero T] [Add T] [Mul T] {n : ℕ} (lhs rhs : Fin n → T) : T :=
  transform_reduce_unseq2 lhs rhs 0 (· + ·) (cast_invoke_result2 id (· * ·))

/-- Model of length_squared(vector) (Vector.hpp): dot_product of the vector
with itself. -/
def length_squared {T : Type*} [Zero T] [Add T] [Mul T] {n : ℕ} (vector : Fin n → T) : T :=
  dot_product vector vector

/-- Model of the generator constructor Vector::Vector(TGenerator)
(Vector.hpp): std::ranges::generate fills the storage by invoking the
generator once per element in strict ascending index order.  A stateful
generator is modelled as a step function from a state to a produced value
and a successor state; index 0 receives the first produced value. -/
def vectorFromGenerator {S T : Type*} (step : S → T × S) :
    (n : ℕ) → S → Fin n → T
  | 0, _ => Fin.elim0
  | n + 1, s => Fin.cons (step s).1 (vectorFromGenerator step n (step s).2)

/-- The trace of values a generator produces when invoked n times in
sequence, starting from state s. -/
def generatedTrace {S T : Type*} (step : S → T × S) : ℕ → S → List T
  | 0, _ => []
  | n + 1, s => (step s).1 :: generatedTrace step n (step s).2

/-- The i-th value a generator produces: invoke the step function after
advancing the state i times. -/
def nthGenerated {S T : Type*} (step : S → T × S) (s : S) (i : ℕ) : T :=
  (step ((fun t => (step t).2)^[i] s)).1

/-- Model of gen::fill (Generators.hpp): repeatedly returns the stored
value, state unchanged. -/
def fillStep {T : Type*} (value : T) : Unit → T × Unit :=
  fun _ => (value, ())

/-- Model of gen::iota (Generators.hpp): post-increments the stored value
and returns a copy of the previous value. -/
def iotaStep : ℤ → ℤ × ℤ :=
  fun value => (value, value + 1)

/-- Model of an IEEE double for the operations the library exercises in
inversed: a finite value is kept exactly as a rational (all inputs of
interest are exactly representable), and the two infinities are explicit
values.  NaN never arises in the modelled computations. -/
inductive FloatVal : Type where
  | val : ℚ → FloatVal
  | inf : FloatVal
  | ninf : FloatVal
deriving DecidableEq, Repr

/-- Model of the lambda of inversed (Vector.hpp), value mapsto 1. / value,
under IEEE-754 semantics: dividing one by (positive) zero yields positive
infinity, dividing one by an infinity yields zero, and a finite non-zero
value is inverted exactly. -/
def oneDivFloat : FloatVal → FloatVal
  | FloatVal.val q => if q = 0 then FloatVal.inf else FloatVal.val (1 / q)
  | FloatVal.inf => FloatVal.val 0
  | FloatVal.ninf => FloatVal.val 0

/-- Model of inversed(vector) (Vector.hpp): transform_unseq over the
vector applying value mapsto 1. / value componentwise. -/
def inversed {n : ℕ} (vector : Fin n → FloatVal) : Fin n → FloatVal :=
  transform_unseq1 vector oneDivFloat

/-- Model of std::in_range for size_t applied to an integral index
(as used by the assertion in Vector::operator[]): the index is
representable as std::size_t, i.e. non-negative and at most SIZE_MAX
(size_t is 64 bits wide here). -/
def in_range_size_t (index : ℤ) : Bool :=
  decide (0 ≤ index) && decide (index < 2 ^ 64)

/-- Model of Vector::operator[](integral index) (both the const and the
non-const overload share this body): after the debug assertion, the index
is cast to std::size_t and used to select the component.  Access is only
defined for indices inside the storage, mirroring the undefined behaviour
contract for out-of-range indices. -/
def vector_subscript {T : Type*} {n : ℕ} (v : Fin n → T) (index : ℤ)
    (h : index.toNat < n) : T :=
  v ⟨index.toNat, h⟩

/-- Model of the truncating conversion from double to int that
static_cast performs inside fn::cast_invoke_result when dot_product mixes
an int vector with a double vector: the value is truncated toward zero
(floor for non-negative values, ceiling for negative ones). -/
def cpp_trunc_to_int (q : ℚ) : ℤ :=
  if 0 ≤ q then ⌊q⌋ else ⌈q⌉

/-- Model of dot_product(lhs, rhs) where lhs is Vector<int, n> and rhs is
Vector<double, n> (doubles modelled as exact rationals): each product is
computed in double precision and individually cast back to int by
fn::cast_invoke_result before the fold adds it to the int accumulator. -/
def dot_product_int_double {n : ℕ} (lhs : Fin n → ℤ) (rhs : Fin n → ℚ) : ℤ :=
  transform_reduce_unseq2 lhs rhs 0 (· + ·)
    (cast_invoke_result2 cpp_trunc_to_int (fun a b => (a : ℚ) * b))

/-- Model of projected(vector, target) (Vector.hpp) for floating-point
vectors, modelled with exact rational arithmetic: compute
dot_product(vector, target) and length_squared(target), then scale target
in place by their quotient via operator*=. -/
def projected {n : ℕ} (vector target : Fin n → ℚ) : Fin n → ℚ :=
  vector_mul_scalar_assign target (dot_product vector target / length_squared target)

/-- Model of length(vector) (Vector.hpp) for a double vector, idealized
over the reals: std::sqrt of length_squared. -/
noncomputable def vec_length {n : ℕ} (vector : Fin n → ℝ) : ℝ :=
  Real.sqrt (length_squared vector)

/-- Model of normalized(vec) (Vector.hpp) for a double vector, idealized
over the reals: vec /= length(vec), i.e. every component divided by the
length via operator/=. -/
noncomputable def normalized {n : ℕ} (vec : Fin n → ℝ) : Fin n → ℝ :=
  vector_div_scalar_assign vec (vec_length vec)

/-- Helper: a left fold that adds a function of each list element equals
the initial value plus the sum of the mapped list. -/
theorem foldl_add_eq_sum {M α : Type*} [AddCommMonoid M] (f : α → M) :
    ∀ (l : List α) (init : M),
      l.foldl (fun acc x => acc + f x) init = init + (l.map f).sum := by
  intro l
  induction l with
  | nil => intro init; simp
  | cons x xs ih => intro init; simp [ih, add_assoc]

/-- Helper: the modelled transform_reduce_unseq with zero and addition is
the finite sum of the pairwise-mapped elements. -/
theorem transform_reduce_unseq2_eq_sum {α β M : Type*} [AddCommMonoid M] {n : ℕ}
    (range1 : Fin n → α) (range2 : Fin n → β) (binaryOp2 : α → β → M) :
    transform_reduce_unseq2 range1 range2 0 (· + ·) binaryOp2 =
      ∑ i, binaryOp2 (range1 i) (range2 i) := by
  rw [transform_reduce_unseq2, foldl_add_eq_sum, Fin.sum_univ_def, zero_add]

/-- Helper: dot_product over any non-unital non-associative semiring is the
sum of the componentwise products. -/
theorem dot_product_eq_sum {T : Type*} [NonUnitalNonAssocSemiring T] {n : ℕ}
    (lhs rhs : Fin n → T) :
    dot_product lhs rhs = ∑ i, lhs i * rhs i := by
  rw [dot_product, transform_reduce_unseq2_eq_sum]
  rfl

/-- Helper: the generator trace has exactly n entries, one per invocation. -/
theorem generatedTrace_length {S T : Type*} (step : S → T × S) :
    ∀ (n : ℕ) (s : S), (generatedTrace step n s).length = n := by
  intro n
  induction n with
  | zero => intro s; rfl
  | succ n ih => intro s; simp [generatedTrace, ih]

/-- Helper: component i of a generator-constructed vector is the i-th
value the generator produces. -/
theorem vectorFromGenerator_apply {S T : Type*} (step : S → T × S) :
    ∀ (n : ℕ) (s : S) (i : Fin n),
      vectorFromGenerator step n s i = nthGenerated step s i := by
  intro n
  induction n with
  | zero => intro s i; exact i.elim0
  | succ n ih =>
    intro s i
    refine Fin.cases ?_ ?_ i
    · rfl
    · intro j
      rw [vectorFromGenerator, Fin.cons_succ, ih (step s).2 j]
      simp [nthGenerated, Function.iterate_succ_apply]

/-- Claim C1: converting a Vector of dimension M to dimension N casts the
first min(N, M) source elements in order starting at index 0, zero-fills
indices M..N-1 when N is larger than M, and discards source elements at
index N and beyond when N is smaller than M; concretely the int vector
{1,2,3} converts to {1,2} for N = 2 and to {1,2,3,0,0} for N = 5. -/
theorem conversion_truncates_and_zero_fills {T2 T : Type*} [Zero T] {M N : ℕ}
    (cast : T2 → T) (other : Fin M → T2) (i : Fin N) :
    vectorConvert cast other i =
      (if h : (i : ℕ) < M then cast (other ⟨i, h⟩) else 0) ∧
    (vectorConvert (fun x : ℤ => x) ![1,2,3] : Fin 2 → ℤ) = ![1,2] ∧
    (vectorConvert (fun x : ℤ => x) ![1,2,3] : Fin 5 → ℤ) = ![1,2,3,0,0] := by
  refine ⟨?_, by decide, by decide⟩
  rw [vectorConvert]
  by_cases h : (i : ℕ) < M
  · rw [dif_pos (lt_min i.isLt h), dif_pos h]
    rfl
  · rw [dif_neg (fun hc => h (lt_of_lt_of_le hc (min_le_right N M))), dif_neg h]

/-- Witness for C1: the conversion of {1,2,3} to five dimensions places
zero at index 4, which lies beyond the source dimension 3. -/
theorem conversion_truncates_and_zero_fills_witness :
    (vectorConvert (fun x : ℤ => x) ![1,2,3] : Fin 5 → ℤ) ⟨4, by norm_num⟩ =
      (if h : (4 : ℕ) < 3 then ((![1,2,3] : Fin 3 → ℤ) ⟨4, h⟩) else 0) :=
  (conversion_truncates_and_zero_fills (fun x : ℤ => x) ![1,2,3] ⟨4, by norm_num⟩).1

/-- Claim C2: dot_product of two same-dimension vectors is the sum over i
of the componentwise products (stated over the integers and the
rationals), and length_squared(v) is dot_product(v, v); concretely
length_squared {1,2,3} is 14 and dot_product {1,2} {2,3} is 8. -/
theorem dot_product_is_sum_of_products {n : ℕ} (v1 v2 v : Fin n → ℤ)
    (w1 w2 w : Fin n → ℚ) :
    dot_product v1 v2 = ∑ i, v1 i * v2 i ∧
    dot_product w1 w2 = ∑ i, w1 i * w2 i ∧
    length_squared v = dot_product v v ∧
    length_squared w = dot_product w w ∧
    length_squared (![1,2,3] : Fin 3 → ℤ) = 14 ∧
    dot_product (![1,2] : Fin 2 → ℤ) ![2,3] = 8 :=
  ⟨dot_product_eq_sum v1 v2, dot_product_eq_sum w1 w2, rfl, rfl, by decide, by decide⟩

/-- Claim C3: for non-zero vectors, projected(vector, target) equals
target scaled componentwise by dot_product(vector, target) divided by
length_squared(target); concretely projected({1,1},{2,0}) = {1,0}
(floating-point arithmetic modelled exactly over the rationals). -/
theorem projected_is_scaled_target {n : ℕ} (vector target : Fin n → ℚ)
    (hv : vector ≠ 0) (ht : target ≠ 0) :
    projected vector target =
      (fun i => target i * (dot_product vector target / length_squared target)) ∧
    projected ![1,1] ![2,0] = (![1,0] : Fin 2 → ℚ) := by
  refine ⟨rfl, ?_⟩
  funext i
  fin_cases i <;>
    simp [projected, vector_mul_scalar_assign, transform_unseq1, cast_invoke_result1,
      length_squared, dot_product_eq_sum, Fin.sum_univ_two]

/-- Witness for C3: the projection equation and the concrete example,
instantiated at the non-zero vectors {1,1} and {2,0}. -/
theorem projected_is_scaled_target_witness :
    (![1,1] : Fin 2 → ℚ) ≠ 0 ∧ (![2,0] : Fin 2 → ℚ) ≠ 0 ∧
    (projected ![1,1] ![2,0] =
        (fun i => (![2,0] : Fin 2 → ℚ) i *
          (dot_product ![1,1] ![2,0] / length_squared ![2,0])) ∧
      projected ![1,1] ![2,0] = (![1,0] : Fin 2 → ℚ)) := by
  have h1 : (![1,1] : Fin 2 → ℚ) ≠ 0 := by
    intro hc
    have h0 := congrFun hc 0
    norm_num at h0
  have h2 : (![2,0] : Fin 2 → ℚ) ≠ 0 := by
    intro hc
    have h0 := congrFun hc 0
    norm_num at h0
  exact ⟨h1, h2, projected_is_scaled_target ![1,1] ![2,0] h1 h2⟩

/-- Claim C4: the generator constructor invokes the callable exactly N
times in strict ascending index order, so component i equals the i-th
value the generator produces; concretely fill{5} over N = 3 yields
{5,5,5} and iota{1} over N = 3 yields {1,2,3}. -/
theorem generator_fills_in_order {S T : Type*} (step : S → T × S) (s : S) (n : ℕ) :
    (generatedTrace step n s).length = n ∧
    (∀ i : Fin n, vectorFromGenerator step n s i = nthGenerated step s i) ∧
    vectorFromGenerator (fillStep (5:ℤ)) 3 () = ![5,5,5] ∧
    vectorFromGenerator iotaStep 3 1 = ![1,2,3] :=
  ⟨generatedTrace_length step n s, vectorFromGenerator_apply step n s,
    by decide, by decide⟩

/-- Claim C5: for a non-zero real vector v, normalized(v) is v scaled
componentwise by 1/length(v), and the length of normalized(v) is 1
(floating-point arithmetic idealized over the reals, where approximately
one becomes exactly one). -/
theorem normalized_has_unit_length {n : ℕ} (v : Fin n → ℝ) (h : v ≠ 0) :
    normalized v = (fun i => v i * (1 / vec_length v)) ∧
    vec_length (normalized v) = 1 := by
  have hS : length_squared v = ∑ i, v i * v i := dot_product_eq_sum v v
  obtain ⟨j, hj⟩ := Function.ne_iff.mp h
  rw [Pi.zero_apply] at hj
  have hpos : 0 < ∑ i, v i * v i :=
    Finset.sum_pos' (fun i _ => mul_self_nonneg (v i))
      ⟨j, Finset.mem_univ j, mul_self_pos.mpr hj⟩
  have hSpos : 0 < length_squared v := hS ▸ hpos
  have hLpos : 0 < vec_length v := Real.sqrt_pos.mpr hSpos
  have hL2 : vec_length v * vec_length v = length_squared v :=
    Real.mul_self_sqrt hSpos.le
  have happly : ∀ i, normalized v i = v i / vec_length v := fun i => rfl
  constructor
  · funext i
    rw [happly i, div_eq_mul_inv, one_div]
  · have h1 : length_squared (normalized v) = 1 := by
      rw [length_squared, dot_product_eq_sum]
      calc ∑ i, normalized v i * normalized v i
          = ∑ i, (v i * v i) / (vec_length v * vec_length v) := by
            refine Finset.sum_congr rfl (fun i _ => ?_)
            rw [happly i, div_mul_div_comm]
        _ = (∑ i, v i * v i) / (vec_length v * vec_length v) :=
            (Finset.sum_div _ _ _).symm
        _ = length_squared v / length_squared v := by rw [hL2, hS]
        _ = 1 := div_self (ne_of_gt hSpos)
    rw [vec_length, h1, Real.sqrt_one]

/-- Witness for C5: the normalization property instantiated at the
non-zero vector {3,4}. -/
theorem normalized_has_unit_length_witness :
    (![3,4] : Fin 2 → ℝ) ≠ 0 ∧
    (normalized ![3,4] =
        (fun i => (![3,4] : Fin 2 → ℝ) i * (1 / vec_length ![3,4])) ∧
      vec_length (normalized (![3,4] : Fin 2 → ℝ)) = 1) := by
  have h : (![3,4] : Fin 2 → ℝ) ≠ 0 := by
    intro hc
    have h0 := congrFun hc 0
    norm_num at h0
  exact ⟨h, normalized_has_unit_length ![3,4] h⟩

/-- Claim C6: inversed maps each component x to 1/x with no zero check: a
non-zero finite component q becomes 1/q and a zero component becomes
positive infinity rather than an error; concretely inversed({1,2,0}) is
{1, 0.5, +infinity}. -/
theorem inversed_componentwise_reciprocal {n : ℕ} (v : Fin n → FloatVal) :
    (∀ i q, v i = FloatVal.val q → q ≠ 0 → inversed v i = FloatVal.val (1 / q)) ∧
    (∀ i, v i = FloatVal.val 0 → inversed v i = FloatVal.inf) ∧
    inversed ![FloatVal.val 1, FloatVal.val 2, FloatVal.val 0] =
      ![FloatVal.val 1, FloatVal.val (1/2), FloatVal.inf] := by
  refine ⟨?_, ?_, ?_⟩
  · intro i q hq hne
    simp [inversed, transform_unseq1, hq, oneDivFloat, hne]
  · intro i hq
    simp [inversed, transform_unseq1, hq, oneDivFloat]
  · funext i
    fin_cases i <;> norm_num [inversed, transform_unseq1, oneDivFloat]

/-- Witness for C6: the zero component of {1,2,0} is sent to positive
infinity. -/
theorem inversed_componentwise_reciprocal_witness :
    inversed ![FloatVal.val 1, FloatVal.val 2, FloatVal.val 0] 2 = FloatVal.inf :=
  (inversed_componentwise_reciprocal
    ![FloatVal.val 1, FloatVal.val 2, FloatVal.val 0]).2.1 2 rfl

/-- Claim C7: round trips hold: (v + x) - x = v for a scalar x and
(v1 + v2) - v2 = v1 for same-dimension vectors, stated over the integers
(exactly) and over the rationals (idealized exact floating-point
arithmetic, which subsumes approximate equality). -/
theorem add_sub_round_trip {n : ℕ} (v w : Fin n → ℤ) (x : ℤ)
    (v2 w2 : Fin n → ℚ) (x2 : ℚ) :
    op_sub_vs (op_add_vs v x) x = v ∧
    op_sub_vv (op_add_vv v w) w = v ∧
    op_sub_vs (op_add_vs v2 x2) x2 = v2 ∧
    op_sub_vv (op_add_vv v2 w2) w2 = v2 := by
  refine ⟨?_, ?_, ?_, ?_⟩ <;>
    · funext i
      simp [op_sub_vs, op_add_vs, op_sub_vv, op_add_vv, vector_add_scalar_assign,
        vector_sub_scalar_assign, vector_add_assign, vector_sub_assign,
        transform_unseq1, transform_unseq2, cast_invoke_result1, cast_invoke_result2]

/-- Claim C8: the two scalar-multiplication overloads agree, v * s equals
s * v, and dot_product(a, b) equals dot_product(b, a), stated over the
integers and the rationals. -/
theorem mul_and_dot_commute {n : ℕ} (v : Fin n → ℤ) (s : ℤ) (a b : Fin n → ℤ)
    (v2 : Fin n → ℚ) (s2 : ℚ) (a2 b2 : Fin n → ℚ) :
    op_mul_vs v s = op_mul_sv s v ∧
    dot_product a b = dot_product b a ∧
    op_mul_vs v2 s2 = op_mul_sv s2 v2 ∧
    dot_product a2 b2 = dot_product b2 a2 := by
  refine ⟨rfl, ?_, rfl, ?_⟩ <;>
    · rw [dot_product_eq_sum, dot_product_eq_sum]
      exact Finset.sum_congr rfl (fun i _ => mul_comm _ _)

/-- Claim C9: in mixed-type dot_product each product is cast to the first
vector's element type before being accumulated: the int/double instance
equals the sum of the per-index truncated products, and on the inputs
{1,1} and {0.5,0.5} this yields 0, while truncating the exact sum of the
products would yield 1. -/
theorem dot_product_casts_each_product {n : ℕ} (lhs : Fin n → ℤ) (rhs : Fin n → ℚ) :
    dot_product_int_double lhs rhs = ∑ i, cpp_trunc_to_int ((lhs i : ℚ) * rhs i) ∧
    dot_product_int_double ![1,1] ![1/2, 1/2] = 0 ∧
    cpp_trunc_to_int (((1:ℤ) : ℚ) * (1/2) + ((1:ℤ) : ℚ) * (1/2)) = 1 := by
  refine ⟨?_, ?_, by norm_num [cpp_trunc_to_int]⟩
  · rw [dot_product_int_double, transform_reduce_unseq2_eq_sum]
    rfl
  · rw [dot_product_int_double, transform_reduce_unseq2_eq_sum, Fin.sum_univ_two]
    norm_num [cast_invoke_result2, cpp_trunc_to_int]

/-- Claim C10: for an integral index with 0 <= index < N, operator[]
passes its debug assertion and returns component index (the modelled
access is pure, leaving every component unchanged); the assertion checks
only that the index is representable as std::size_t, not that it is below
N: the out-of-range index N itself also passes it. -/
theorem subscript_in_range {T : Type*} {n : ℕ} (v : Fin n → T) (index : ℤ)
    (hn : (n : ℤ) < 2 ^ 64) (h0 : 0 ≤ index) (hlt : index.toNat < n) :
    in_range_size_t index = true ∧
    vector_subscript v index hlt = v ⟨index.toNat, hlt⟩ ∧
    in_range_size_t (n : ℤ) = true := by
  have h64 : (2 : ℤ) ^ 64 = 18446744073709551616 := by norm_num
  refine ⟨?_, rfl, ?_⟩
  · simp only [in_range_size_t, Bool.and_eq_true, decide_eq_true_eq]
    omega
  · simp only [in_range_size_t, Bool.and_eq_true, decide_eq_true_eq]
    omega

/-- Witness for C10: index 1 into the three-dimensional vector {10,20,30}
passes the assertion and selects component 1, and index 3 also passes the
assertion although it is out of range. -/
theorem subscript_in_range_witness :
    ((3 : ℕ) : ℤ) < 2 ^ 64 ∧ (0 : ℤ) ≤ 1 ∧ (1 : ℤ).toNat < 3 ∧
    (in_range_size_t 1 = true ∧
      vector_subscript (![10,20,30] : Fin 3 → ℤ) 1 (by norm_num) =
        ![10,20,30] ⟨(1 : ℤ).toNat, by norm_num⟩ ∧
      in_range_size_t ((3 : ℕ) : ℤ) = true) :=
  ⟨by norm_num, by norm_num, by norm_num,
    subscript_in_range ![10,20,30] 1 (by norm_num) (by norm_num) (by norm_num)⟩

end SimpleVector
